import Mathlib

/-!
Shallow embedding of the spot-detection core of `starfish`
(`src/starfish/spots/_detector/detect.py` and
`src/starfish/core/spots/FindSpots/_base.py`).

Images are modelled as total functions `ℕ → ℕ → ℕ → ℚ` together with an
explicit spatial shape `(nz, ny, nx)`; pixel values and spot coordinates and
radii are rationals (the Python code uses floats; the claims under study are
about exact index arithmetic, rounding direction and table shapes, not about
floating-point rounding).  NumPy's `astype(int)` truncates toward zero, which
is `truncQ` below.  An unset (NaN) entry of an intensity tensor is modelled
as `Option.none`.
-/

/-- Truncation toward zero, the semantics of NumPy's `astype(int)` on a
float value. -/
def truncQ (q : ℚ) : ℤ := if q < 0 then ⌈q⌉ else ⌊q⌋

/-- The integer radius derived from a spot's numeric radius in
`measure_spot_intensity`: under the gyration policy the radius is rounded up
and one unit of margin is added (`np.ceil(...).astype(int) + 1`); under the
default policy it is truncated (`.astype(int)`). -/
def intRadius (radius_is_gyration : Bool) (r : ℚ) : ℤ :=
  if radius_is_gyration then ⌈r⌉ + 1 else truncQ r

/-- Lower bounding-box coordinate along one axis, before integer conversion:
`np.clip(center - (radius - 1), 0, None)`. -/
def boxMinQ (center : ℚ) (R : ℤ) : ℚ := max (center - ((R : ℚ) - 1)) 0

/-- Upper bounding-box coordinate along one axis, before integer conversion:
`np.clip(center + radius, None, max_size)`. -/
def boxMaxQ (center : ℚ) (R : ℤ) (extent : ℕ) : ℚ := min (center + (R : ℚ)) (extent : ℚ)

/-- The lower box index actually used for slicing (`astype(int)` applied to
the clipped column). -/
def boxMinI (center : ℚ) (R : ℤ) : ℤ := truncQ (boxMinQ center R)

/-- The upper box index actually used for slicing (`astype(int)` applied to
the clipped column). -/
def boxMaxI (center : ℚ) (R : ℤ) (extent : ℕ) : ℤ := truncQ (boxMaxQ center R extent)

/-- One row of a `SpotAttributes` table: continuous z/y/x coordinates, the
numeric radius, and the intensity column carried by spots found per slice. -/
structure SpotRow where
  z : ℚ
  y : ℚ
  x : ℚ
  radius : ℚ
  intensity : ℚ
deriving DecidableEq

/-- The six bounding-box columns `z_min … x_max` that
`measure_spot_intensity` stores into the spot table (kept as the clipped
numeric values; integer conversion happens when the box is used). -/
structure BoxRow where
  z_min : ℚ
  z_max : ℚ
  y_min : ℚ
  y_max : ℚ
  x_min : ℚ
  x_max : ℚ
deriving DecidableEq

/-- A `SpotAttributes` table: the coordinate/radius/intensity rows, plus the
bounding-box columns when `measure_spot_intensity` has added them
(`none` before any measurement call). -/
structure SpotAttributes where
  rows : List SpotRow
  boxCols : Option (List BoxRow)
deriving DecidableEq

/-- The bounding box of one spot in a volume of spatial shape
`(nz, ny, nx)`, as computed in the `for v, max_size in zip(['z','y','x'],
image.shape)` loop of `measure_spot_intensity`. -/
def computeBox (shape : ℕ × ℕ × ℕ) (R : ℤ) (row : SpotRow) : BoxRow :=
  { z_min := boxMinQ row.z R
    z_max := boxMaxQ row.z R shape.1
    y_min := boxMinQ row.y R
    y_max := boxMaxQ row.y R shape.2.1
    x_min := boxMinQ row.x R
    x_max := boxMaxQ row.x R shape.2.2 }

/-- Indices selected by the Python slice `lo:hi` for non-negative `lo`:
`lo, lo+1, …, hi-1` (empty when `hi ≤ lo`). -/
def sliceRange (lo hi : ℤ) : List ℕ := List.range' lo.toNat (hi.toNat - lo.toNat)

/-- The flattened sub-volume `image[z_min:z_max, y_min:y_max, x_min:x_max]`
read by the per-row function `fn` of `measure_spot_intensity`, after the
box columns are converted with `astype(int)`. -/
def extractBox (image : ℕ → ℕ → ℕ → ℚ) (b : BoxRow) : List ℚ :=
  (sliceRange (truncQ b.z_min) (truncQ b.z_max)).flatMap fun z =>
    (sliceRange (truncQ b.y_min) (truncQ b.y_max)).flatMap fun y =>
      (sliceRange (truncQ b.x_min) (truncQ b.x_max)).map fun x => image z y x

/-- `measure_spot_intensity`: derive each spot's integer radius per policy,
store the six bounding-box columns into the spot table (an in-place update of
`spots.data` in the source), and reduce each spot's sub-volume with the
measurement function.  Returns the per-spot intensity series together with
the spot table as it is left after the call. -/
def measure_spot_intensity (image : ℕ → ℕ → ℕ → ℚ) (shape : ℕ × ℕ × ℕ)
    (spots : SpotAttributes) (measurement_function : List ℚ → ℚ)
    (radius_is_gyration : Bool) : List ℚ × SpotAttributes :=
  let boxes := spots.rows.map fun row =>
    computeBox shape (intRadius radius_is_gyration row.radius) row
  let vals := boxes.map fun b => measurement_function (extractBox image b)
  (vals, { rows := spots.rows, boxCols := some boxes })

/-! ## Basic facts about truncation and the box geometry -/

theorem truncQ_of_nonneg {q : ℚ} (h : 0 ≤ q) : truncQ q = ⌊q⌋ := by
  simp [truncQ, not_lt.mpr h]

theorem truncQ_nonneg {q : ℚ} (h : 0 ≤ q) : 0 ≤ truncQ q := by
  rw [truncQ_of_nonneg h]
  exact Int.floor_nonneg.mpr h

theorem truncQ_mono {a b : ℚ} (h : a ≤ b) : truncQ a ≤ truncQ b := by
  unfold truncQ
  by_cases ha : a < 0
  · by_cases hb : b < 0
    · simp only [if_pos ha, if_pos hb]
      exact Int.ceil_mono h
    · simp only [if_pos ha, if_neg hb]
      have h1 : (⌈a⌉ : ℤ) ≤ 0 := Int.ceil_le.mpr (by exact_mod_cast ha.le)
      have h2 : (0 : ℤ) ≤ ⌊b⌋ := Int.floor_nonneg.mpr (not_lt.mp hb)
      omega
  · have hb : ¬ b < 0 := fun hb => ha (lt_of_le_of_lt h hb)
    simp only [if_neg ha, if_neg hb]
    exact Int.floor_mono h

theorem truncQ_le_self_of_le {q : ℚ} {n : ℤ} (h : q ≤ n) : truncQ q ≤ n := by
  unfold truncQ
  by_cases hq : q < 0
  · simp only [if_pos hq]
    exact Int.ceil_le.mpr h
  · simp only [if_neg hq]
    have h1 : (⌊q⌋ : ℚ) ≤ (n : ℚ) := (Int.floor_le q).trans h
    exact_mod_cast h1

theorem boxMinI_nonneg (c : ℚ) (R : ℤ) : 0 ≤ boxMinI c R :=
  truncQ_nonneg (le_max_right _ _)

theorem boxMaxI_le_extent (c : ℚ) (R : ℤ) (extent : ℕ) :
    boxMaxI c R extent ≤ (extent : ℤ) :=
  truncQ_le_self_of_le (by exact_mod_cast min_le_right _ ((extent : ℚ)))

theorem intRadius_false_eq {r : ℚ} (hr : 0 ≤ r) : intRadius false r = ⌊r⌋ := by
  simp [intRadius, truncQ_of_nonneg hr]

theorem intRadius_true_eq (r : ℚ) : intRadius true r = ⌈r⌉ + 1 := by
  simp [intRadius]

theorem intRadius_nonneg {r : ℚ} (hr : 0 ≤ r) (flag : Bool) : 0 ≤ intRadius flag r := by
  cases flag
  · rw [intRadius_false_eq hr]
    exact Int.floor_nonneg.mpr hr
  · rw [intRadius_true_eq]
    have h := Int.ceil_nonneg hr
    omega

theorem intRadius_false_le_true {r : ℚ} (hr : 0 ≤ r) :
    intRadius false r ≤ intRadius true r := by
  rw [intRadius_false_eq hr, intRadius_true_eq]
  have h := Int.floor_le_ceil r
  omega

theorem boxMinI_anti {c : ℚ} {R Rbig : ℤ} (h : R ≤ Rbig) :
    boxMinI c Rbig ≤ boxMinI c R := by
  apply truncQ_mono
  apply max_le_max _ le_rfl
  have hq : (R : ℚ) ≤ (Rbig : ℚ) := by exact_mod_cast h
  linarith

theorem boxMaxI_mono {c : ℚ} {R Rbig : ℤ} (extent : ℕ) (h : R ≤ Rbig) :
    boxMaxI c R extent ≤ boxMaxI c Rbig extent := by
  apply truncQ_mono
  apply min_le_min _ le_rfl
  have hq : (R : ℚ) ≤ (Rbig : ℚ) := by exact_mod_cast h
  linarith

/-- When the box is interior to the volume (no clipping takes effect) its
index width is `2 * R - 1`, an odd width: one centre voxel plus `R - 1`
voxels on each side. -/
theorem box_width_interior (c : ℚ) (R : ℤ) (extent : ℕ)
    (hc : 0 ≤ c) (hR : 0 ≤ R)
    (hlo : 0 ≤ c - ((R : ℚ) - 1)) (hhi : c + (R : ℚ) ≤ (extent : ℚ)) :
    boxMaxI c R extent - boxMinI c R = 2 * R - 1 := by
  have hmin : boxMinQ c R = c - ((R : ℚ) - 1) := max_eq_left hlo
  have hmax : boxMaxQ c R extent = c + (R : ℚ) := min_eq_left hhi
  have hcR : 0 ≤ c + (R : ℚ) := add_nonneg hc (by exact_mod_cast hR)
  have h1 : boxMinI c R = ⌊c⌋ - (R - 1) := by
    rw [boxMinI, hmin, truncQ_of_nonneg hlo]
    rw [show c - ((R : ℚ) - 1) = c - (((R - 1 : ℤ) : ℚ)) by push_cast; ring]
    exact Int.floor_sub_int c (R - 1)
  have h2 : boxMaxI c R extent = ⌊c⌋ + R := by
    rw [boxMaxI, hmax, truncQ_of_nonneg hcR]
    exact Int.floor_add_int c R
  rw [h1, h2]
  ring

/-- C1, as the spec states it, is false: a spot at centre `5` with radius
`5/2` in a volume of extent `100` (no clipping takes effect) gets a box of
width `3`, not `2 * floor(5/2) = 4`. -/
theorem box_width_claim_cex :
    boxMaxI 5 (intRadius false (5/2 : ℚ)) 100 - boxMinI 5 (intRadius false (5/2 : ℚ)) = 3 ∧
    2 * ⌊(5/2 : ℚ)⌋ = 4 ∧
    boxMaxI 5 (intRadius false (5/2 : ℚ)) 100 - boxMinI 5 (intRadius false (5/2 : ℚ))
      ≠ 2 * ⌊(5/2 : ℚ)⌋ := by
  have hR : intRadius false (5/2 : ℚ) = 2 := by
    rw [intRadius_false_eq (by norm_num)]
    norm_num
  have hfl : (⌊(5/2 : ℚ)⌋ : ℤ) = 2 := by norm_num
  have h1 : boxMinI 5 (2 : ℤ) = 4 := by
    rw [boxMinI, boxMinQ, show ((5 : ℚ) - (((2 : ℤ) : ℚ) - 1)) = 4 by norm_num,
      max_eq_left (by norm_num : (0 : ℚ) ≤ 4), truncQ_of_nonneg (by norm_num)]
    norm_num
  have h2 : boxMaxI 5 (2 : ℤ) 100 = 7 := by
    rw [boxMaxI, boxMaxQ, show ((5 : ℚ) + ((2 : ℤ) : ℚ)) = 7 by norm_num,
      min_eq_left (by norm_num : (7 : ℚ) ≤ ((100 : ℕ) : ℚ)), truncQ_of_nonneg (by norm_num)]
    norm_num
  rw [hR, hfl, h1, h2]
  norm_num

/-- C1 (amended): the integer radius is `floor r` under the default policy
and `ceil r + 1` under the gyration policy; an unclipped box has index
width `2 * R - 1` (not `2 * R`); and for the same numeric radius the
gyration-policy box always contains the default-policy box, on the clipped
boxes included. -/
theorem box_width_policies (c r : ℚ) (extent : ℕ) (flag : Bool)
    (hr : 0 ≤ r) (hc : 0 ≤ c) :
    intRadius false r = ⌊r⌋ ∧
    intRadius true r = ⌈r⌉ + 1 ∧
    (0 ≤ c - ((intRadius flag r : ℚ) - 1) →
      c + (intRadius flag r : ℚ) ≤ (extent : ℚ) →
      boxMaxI c (intRadius flag r) extent - boxMinI c (intRadius flag r)
        = 2 * intRadius flag r - 1) ∧
    boxMinI c (intRadius true r) ≤ boxMinI c (intRadius false r) ∧
    boxMaxI c (intRadius false r) extent ≤ boxMaxI c (intRadius true r) extent :=
  ⟨intRadius_false_eq hr, intRadius_true_eq r,
    fun hlo hhi => box_width_interior c _ extent hc (intRadius_nonneg hr flag) hlo hhi,
    boxMinI_anti (intRadius_false_le_true hr),
    boxMaxI_mono extent (intRadius_false_le_true hr)⟩

theorem box_width_policies_witness :
    intRadius false (5/2 : ℚ) = ⌊(5/2 : ℚ)⌋ ∧
    intRadius true (5/2 : ℚ) = ⌈(5/2 : ℚ)⌉ + 1 ∧
    (0 ≤ (5 : ℚ) - ((intRadius false (5/2 : ℚ) : ℚ) - 1) →
      (5 : ℚ) + (intRadius false (5/2 : ℚ) : ℚ) ≤ ((100 : ℕ) : ℚ) →
      boxMaxI 5 (intRadius false (5/2 : ℚ)) 100 - boxMinI 5 (intRadius false (5/2 : ℚ))
        = 2 * intRadius false (5/2 : ℚ) - 1) ∧
    boxMinI 5 (intRadius true (5/2 : ℚ)) ≤ boxMinI 5 (intRadius false (5/2 : ℚ)) ∧
    boxMaxI 5 (intRadius false (5/2 : ℚ)) 100 ≤ boxMaxI 5 (intRadius true (5/2 : ℚ)) 100 :=
  box_width_policies 5 (5/2) 100 false (by norm_num) (by norm_num)

/-- C2: in `measure_spot_intensity` each spot's box is computed per axis as
`min = clip(center - (radius - 1), 0, None)` and
`max = clip(center + radius, None, axis_extent)`, and the integer indices
used for slicing satisfy `0 ≤ min` and `max ≤ axis_extent`; the call also
yields one intensity per spot row. -/
theorem measure_spot_intensity_box_bounds
    (image : ℕ → ℕ → ℕ → ℚ) (shape : ℕ × ℕ × ℕ) (spots : SpotAttributes)
    (f : List ℚ → ℚ) (g : Bool) (i : ℕ) (row : SpotRow)
    (hrow : spots.rows[i]? = some row) :
    ∃ boxes, (measure_spot_intensity image shape spots f g).2.boxCols = some boxes ∧
      boxes[i]? = some (computeBox shape (intRadius g row.radius) row) ∧
      (computeBox shape (intRadius g row.radius) row).z_min
        = max (row.z - ((intRadius g row.radius : ℚ) - 1)) 0 ∧
      (computeBox shape (intRadius g row.radius) row).z_max
        = min (row.z + (intRadius g row.radius : ℚ)) (shape.1 : ℚ) ∧
      (computeBox shape (intRadius g row.radius) row).y_min
        = max (row.y - ((intRadius g row.radius : ℚ) - 1)) 0 ∧
      (computeBox shape (intRadius g row.radius) row).y_max
        = min (row.y + (intRadius g row.radius : ℚ)) (shape.2.1 : ℚ) ∧
      (computeBox shape (intRadius g row.radius) row).x_min
        = max (row.x - ((intRadius g row.radius : ℚ) - 1)) 0 ∧
      (computeBox shape (intRadius g row.radius) row).x_max
        = min (row.x + (intRadius g row.radius : ℚ)) (shape.2.2 : ℚ) ∧
      0 ≤ truncQ (computeBox shape (intRadius g row.radius) row).z_min ∧
      truncQ (computeBox shape (intRadius g row.radius) row).z_max ≤ (shape.1 : ℤ) ∧
      0 ≤ truncQ (computeBox shape (intRadius g row.radius) row).y_min ∧
      truncQ (computeBox shape (intRadius g row.radius) row).y_max ≤ (shape.2.1 : ℤ) ∧
      0 ≤ truncQ (computeBox shape (intRadius g row.radius) row).x_min ∧
      truncQ (computeBox shape (intRadius g row.radius) row).x_max ≤ (shape.2.2 : ℤ) ∧
      (measure_spot_intensity image shape spots f g).1.length = spots.rows.length := by
  refine ⟨spots.rows.map fun q => computeBox shape (intRadius g q.radius) q,
    ?_, ?_, ?_, ?_, ?_, ?_, ?_, ?_, ?_, ?_, ?_, ?_, ?_, ?_, ?_⟩
  · rfl
  · rw [List.getElem?_map, hrow]
    rfl
  · rfl
  · rfl
  · rfl
  · rfl
  · rfl
  · rfl
  · exact boxMinI_nonneg row.z _
  · exact boxMaxI_le_extent row.z _ _
  · exact boxMinI_nonneg row.y _
  · exact boxMaxI_le_extent row.y _ _
  · exact boxMinI_nonneg row.x _
  · exact boxMaxI_le_extent row.x _ _
  · simp [measure_spot_intensity]

/-! ## Concrete example inputs used by witnesses and counterexamples -/

/-- The all-zero test image. -/
def zeroImage : ℕ → ℕ → ℕ → ℚ := fun _ _ _ => 0

/-- The `np.max` reduction on the flattened sub-volume (on the non-negative
images used here, folding from `0` agrees with the maximum). -/
def listMax (l : List ℚ) : ℚ := l.foldr max 0

/-- The `np.mean` reduction. -/
def listMean (l : List ℚ) : ℚ := l.sum / (l.length : ℚ)

/-- The `np.min` reduction (folding from the head's value is immaterial for
the claims, which never evaluate it). -/
def listMin (l : List ℚ) : ℚ := l.foldr min 0

/-- The `np.sum` reduction. -/
def listSum (l : List ℚ) : ℚ := l.sum

/-- The boundary spot of C2: centred at coordinate 0 on every axis, radius 5. -/
def boundaryRow : SpotRow := ⟨0, 0, 0, 5, 0⟩

/-- A one-spot table holding the boundary spot, before any measurement call. -/
def boundarySpots : SpotAttributes := ⟨[boundaryRow], none⟩

theorem measure_spot_intensity_box_bounds_witness :
    boundarySpots.rows[0]? = some boundaryRow ∧
    boxMinI 0 (intRadius false (5 : ℚ)) = 0 ∧
    boxMaxI 0 (intRadius false (5 : ℚ)) 10 = 5 ∧
    (∃ boxes,
      (measure_spot_intensity zeroImage (10, 10, 10) boundarySpots listMax false).2.boxCols
        = some boxes ∧
      boxes[0]? = some (computeBox (10, 10, 10)
        (intRadius false boundaryRow.radius) boundaryRow)) := by
  have hR : intRadius false (5 : ℚ) = 5 := by
    rw [intRadius_false_eq (by norm_num)]
    norm_num
  refine ⟨rfl, ?_, ?_, ?_⟩
  · rw [hR, boxMinI, boxMinQ,
      max_eq_right (by push_cast; norm_num : (0 : ℚ) - (((5 : ℤ) : ℚ) - 1) ≤ 0),
      truncQ_of_nonneg le_rfl]
    norm_num
  · rw [hR, boxMaxI, boxMaxQ,
      min_eq_left (by push_cast; norm_num : (0 : ℚ) + ((5 : ℤ) : ℚ) ≤ ((10 : ℕ) : ℚ)),
      truncQ_of_nonneg (by push_cast; norm_num)]
    push_cast
    norm_num
  · exact (measure_spot_intensity_box_bounds zeroImage (10, 10, 10) boundarySpots
      listMax false 0 boundaryRow rfl).elim fun boxes h => ⟨boxes, h.1, h.2.1⟩

/-- C5, as the spec states it, is false: `measure_spot_intensity` stores the
bounding-box columns into the caller's table and they persist after the call,
so the caller-visible table is not as it was before the call. -/
theorem measure_spot_intensity_mutates :
    (measure_spot_intensity zeroImage (10, 10, 10) boundarySpots listMax false).2
      ≠ boundarySpots := by
  intro h
  have hb := congrArg SpotAttributes.boxCols h
  simp [measure_spot_intensity, boundarySpots] at hb

/-- C5 (amended): `measure_spot_intensity` leaves the coordinate/radius rows
of its input table unmodified; the only caller-visible change is that the six
bounding-box columns are added (and persist after the call). -/
theorem measure_spot_intensity_preserves_rows
    (image : ℕ → ℕ → ℕ → ℚ) (shape : ℕ × ℕ × ℕ) (spots : SpotAttributes)
    (f : List ℚ → ℚ) (g : Bool) :
    (measure_spot_intensity image shape spots f g).2.rows = spots.rows ∧
    (measure_spot_intensity image shape spots f g).2.boxCols
      = some (spots.rows.map fun row => computeBox shape (intRadius g row.radius) row) := by
  constructor
  · rfl
  · rfl

/-! ## The intensity tensor and the reference-image measurement path -/

/-- An `IntensityTable`: a spot × channel × round tensor of optional
intensities (`none` models a freshly allocated NaN entry), with its extents. -/
structure IntensityTable where
  nSpots : ℕ
  n_ch : ℕ
  n_round : ℕ
  entries : ℕ → ℕ → ℕ → Option ℚ

/-- Modelled from the spec: `IntensityTable.empty_intensity_table`
(`starfish/intensity_table/intensity_table.py`, not under `src/`) allocates
the spot × channel × round tensor sized from the spot table's row count and
the given channel/round extents, with every entry unset (NaN). -/
def IntensityTable.empty_intensity_table (spot_attributes : SpotAttributes)
    (n_ch n_round : ℕ) : IntensityTable :=
  ⟨spot_attributes.rows.length, n_ch, n_round, fun _ _ _ => none⟩

/-- Modelled from the spec: the volume abstraction (`ImageStack`, not under
`src/`) exposes channel/round extents, a spatial shape, per-(channel, round)
slice reads, and whether all tiles share one physical coordinate frame. -/
structure ImageStack where
  n_ch : ℕ
  n_round : ℕ
  nz : ℕ
  ny : ℕ
  nx : ℕ
  data : ℕ → ℕ → ℕ → ℕ → ℕ → ℚ
  tiles_aligned : Bool

/-- Modelled from the spec: `ImageStack.get_slice({Axes.CH: c, Axes.ROUND: r})`
returns the 3-d spatial volume at channel `c` and round `r`. -/
def ImageStack.get_slice (s : ImageStack) (c r : ℕ) : ℕ → ℕ → ℕ → ℚ :=
  fun z y x => s.data c r z y x

/-- The spatial `(z, y, x)` shape of every slice of the stack. -/
def ImageStack.spatialShape (s : ImageStack) : ℕ × ℕ × ℕ := (s.nz, s.ny, s.nx)

/-- `itertools.product(range(n_ch), range(n_round))`: every (channel, round)
pair, channel-major. -/
def chRoundPairs (n_ch n_round : ℕ) : List (ℕ × ℕ) :=
  List.range n_ch ×ˢ List.range n_round

/-- The slice assignment `intensity_table[:, c, r] = blob_intensities`:
every spot row of the (c, r) column is overwritten with the corresponding
entry of the per-spot series. -/
def setColumn (t : IntensityTable) (c r : ℕ) (vals : List ℚ) : IntensityTable :=
  { t with entries := fun i cc rr => if cc = c ∧ rr = r then vals[i]? else t.entries i cc rr }

/-- `measure_spot_intensities`: allocate the empty table; if no spots were
detected return it immediately; otherwise measure the shared spot table
against every (channel, round) slice and write each per-spot series into
that column of the tensor. -/
def measure_spot_intensities (data_image : ImageStack) (spot_attributes : SpotAttributes)
    (measurement_function : List ℚ → ℚ) (radius_is_gyration : Bool) : IntensityTable :=
  let intensity_table := IntensityTable.empty_intensity_table spot_attributes
      data_image.n_ch data_image.n_round
  if intensity_table.nSpots = 0 then intensity_table
  else
    (chRoundPairs data_image.n_ch data_image.n_round).foldl
      (fun tab cr =>
        setColumn tab cr.1 cr.2
          ((measure_spot_intensity (data_image.get_slice cr.1 cr.2)
            data_image.spatialShape spot_attributes measurement_function
            radius_is_gyration).1))
      intensity_table

theorem mem_chRoundPairs {c r n_ch n_round : ℕ} :
    (c, r) ∈ chRoundPairs n_ch n_round ↔ c < n_ch ∧ r < n_round := by
  simp [chRoundPairs, List.mem_product]

theorem nodup_chRoundPairs (n_ch n_round : ℕ) : (chRoundPairs n_ch n_round).Nodup :=
  (List.nodup_range n_ch).product (List.nodup_range n_round)

theorem setColumn_dims (t : IntensityTable) (c r : ℕ) (vals : List ℚ) :
    (setColumn t c r vals).nSpots = t.nSpots ∧
    (setColumn t c r vals).n_ch = t.n_ch ∧
    (setColumn t c r vals).n_round = t.n_round :=
  ⟨rfl, rfl, rfl⟩

theorem foldl_setColumn_dims (colVals : ℕ × ℕ → List ℚ) (L : List (ℕ × ℕ)) :
    ∀ t : IntensityTable,
      (L.foldl (fun tab cr => setColumn tab cr.1 cr.2 (colVals cr)) t).nSpots = t.nSpots ∧
      (L.foldl (fun tab cr => setColumn tab cr.1 cr.2 (colVals cr)) t).n_ch = t.n_ch ∧
      (L.foldl (fun tab cr => setColumn tab cr.1 cr.2 (colVals cr)) t).n_round = t.n_round := by
  induction L with
  | nil => intro t; exact ⟨rfl, rfl, rfl⟩
  | cons a L ih =>
    intro t
    rw [List.foldl_cons]
    exact ih (setColumn t a.1 a.2 (colVals a))

theorem foldl_setColumn_entries (colVals : ℕ × ℕ → List ℚ) (L : List (ℕ × ℕ)) :
    ∀ (t : IntensityTable) (i c r : ℕ),
      (L.foldl (fun tab cr => setColumn tab cr.1 cr.2 (colVals cr)) t).entries i c r
        = if (c, r) ∈ L then (colVals (c, r))[i]? else t.entries i c r := by
  induction L with
  | nil => intro t i c r; simp
  | cons a L ih =>
    intro t i c r
    rw [List.foldl_cons, ih]
    by_cases hmem : (c, r) ∈ L
    · simp [hmem]
    · by_cases ha : (c, r) = a
      · subst ha
        simp [hmem, setColumn]
      · have hne : ¬ (c = a.1 ∧ r = a.2) := by
          intro hcr
          exact ha (by cases a with | mk a1 a2 => simp_all)
        simp [hmem, ha, setColumn, hne]

/-- C3: the reference-image path returns an `IntensityTable` with one row
per input spot and the volume's channel/round extents; the (channel, round)
iteration list is the full cross product without duplicates (each pair
visited exactly once), and each entry of row `i` holds the `i`-th value
(order preserved) of the per-spot series measured on that slice, so every
spot has `n_ch × n_round` filled entries. -/
theorem measure_spot_intensities_shape_fill
    (data_image : ImageStack) (spots : SpotAttributes)
    (f : List ℚ → ℚ) (g : Bool) :
    (measure_spot_intensities data_image spots f g).nSpots = spots.rows.length ∧
    (measure_spot_intensities data_image spots f g).n_ch = data_image.n_ch ∧
    (measure_spot_intensities data_image spots f g).n_round = data_image.n_round ∧
    (chRoundPairs data_image.n_ch data_image.n_round).Nodup ∧
    ∀ c r, c < data_image.n_ch → r < data_image.n_round →
      (c, r) ∈ chRoundPairs data_image.n_ch data_image.n_round ∧
      ∀ i, i < spots.rows.length →
        (measure_spot_intensities data_image spots f g).entries i c r
          = ((measure_spot_intensity (data_image.get_slice c r)
              data_image.spatialShape spots f g).1)[i]? ∧
        ((measure_spot_intensities data_image spots f g).entries i c r).isSome := by
  rw [measure_spot_intensities]
  by_cases h0 : (IntensityTable.empty_intensity_table spots
      data_image.n_ch data_image.n_round).nSpots = 0
  · rw [if_pos h0]
    have hlen : spots.rows.length = 0 := h0
    exact ⟨rfl, rfl, rfl, nodup_chRoundPairs _ _, fun c r hc hr =>
      ⟨mem_chRoundPairs.mpr ⟨hc, hr⟩, fun i hi => absurd hi (by omega)⟩⟩
  · rw [if_neg h0]
    have hdims := foldl_setColumn_dims
      (fun cr => (measure_spot_intensity (data_image.get_slice cr.1 cr.2)
        data_image.spatialShape spots f g).1)
      (chRoundPairs data_image.n_ch data_image.n_round)
      (IntensityTable.empty_intensity_table spots data_image.n_ch data_image.n_round)
    refine ⟨hdims.1, hdims.2.1, hdims.2.2, nodup_chRoundPairs _ _,
      fun c r hc hr => ⟨mem_chRoundPairs.mpr ⟨hc, hr⟩, fun i hi => ?_⟩⟩
    have hent := foldl_setColumn_entries
      (fun cr => (measure_spot_intensity (data_image.get_slice cr.1 cr.2)
        data_image.spatialShape spots f g).1)
      (chRoundPairs data_image.n_ch data_image.n_round)
      (IntensityTable.empty_intensity_table spots data_image.n_ch data_image.n_round)
      i c r
    rw [if_pos (mem_chRoundPairs.mpr ⟨hc, hr⟩)] at hent
    constructor
    · exact hent
    · rw [hent, List.getElem?_eq_getElem
        (by simp only [measure_spot_intensity, List.length_map]; exact hi)]
      rfl

/-- C9: with zero spots the reference path is not an error: the early-return
branch is taken and yields exactly the freshly allocated empty table, with
zero spot rows, the volume's channel/round extents, and every entry unset. -/
theorem measure_spot_intensities_empty_spots
    (data_image : ImageStack) (spots : SpotAttributes)
    (f : List ℚ → ℚ) (g : Bool) (h : spots.rows = []) :
    measure_spot_intensities data_image spots f g
      = IntensityTable.empty_intensity_table spots data_image.n_ch data_image.n_round ∧
    (measure_spot_intensities data_image spots f g).nSpots = 0 ∧
    (measure_spot_intensities data_image spots f g).n_ch = data_image.n_ch ∧
    (measure_spot_intensities data_image spots f g).n_round = data_image.n_round ∧
    ∀ i c r, (measure_spot_intensities data_image spots f g).entries i c r = none := by
  have h0 : (IntensityTable.empty_intensity_table spots
      data_image.n_ch data_image.n_round).nSpots = 0 := by
    simp [IntensityTable.empty_intensity_table, h]
  rw [measure_spot_intensities]
  rw [if_pos h0]
  exact ⟨rfl, h0, rfl, rfl, fun i c r => rfl⟩

/-- A small concrete stack: 2 channels, 3 rounds, 1×5×5 spatial volume. -/
def exStack : ImageStack := ⟨2, 3, 1, 5, 5, fun _ _ _ _ _ => 0, true⟩

/-- An empty spot table. -/
def emptySpots : SpotAttributes := ⟨[], none⟩

theorem measure_spot_intensities_empty_spots_witness :
    (measure_spot_intensities exStack emptySpots listMax false).nSpots = 0 ∧
    (measure_spot_intensities exStack emptySpots listMax false).n_ch = 2 ∧
    (measure_spot_intensities exStack emptySpots listMax false).n_round = 3 ∧
    (measure_spot_intensities exStack emptySpots listMax false).entries 0 0 0 = none := by
  have h := measure_spot_intensities_empty_spots exStack emptySpots listMax false rfl
  exact ⟨h.2.1, h.2.2.1.trans rfl, h.2.2.2.1.trans rfl, h.2.2.2.2 0 0 0⟩

/-! ## The independent-detection concatenation path -/

/-- The per-slice spot rows flattened in input order, each stamped with its
slice's (channel, round) indices — the iteration space of the fill loop
`for attrs, inds in spot_attributes: for _, row in attrs.data.iterrows()`. -/
def flatStampedRows (ps : List (SpotAttributes × ℕ × ℕ)) : List (ℚ × ℕ × ℕ) :=
  ps.flatMap fun p => p.1.rows.map fun row => (row.intensity, p.2.1, p.2.2)

/-- One tensor write `intensity_table[i, c, r] = v`. -/
def fillAt (t : IntensityTable) (i c r : ℕ) (v : ℚ) : IntensityTable :=
  { t with entries := fun ii cc rr =>
      if ii = i ∧ cc = c ∧ rr = r then some v else t.entries ii cc rr }

/-- The fill loop with its running global spot index `i`, incremented once
per row across all pairs. -/
def fillFrom : ℕ → List (ℚ × ℕ × ℕ) → IntensityTable → IntensityTable
  | _, [], t => t
  | i, sr :: rest, t => fillFrom (i + 1) rest (fillAt t i sr.2.1 sr.2.2 sr.1)

/-- `concatenate_spot_attributes_to_intensities`: channel/round extents are
one plus the maximum observed index (Python's `max(...)` raises on an empty
sequence, modelled as `none`); all per-slice rows are concatenated in input
order into one side table (the source also drops the slice-specific
`spot_id`/`intensity` columns from that side table, which keeps row count
and order); each row's intensity is written at (running global index, its
pair's channel, its pair's round). -/
def concatenate_spot_attributes_to_intensities
    (spot_attributes : List (SpotAttributes × ℕ × ℕ)) : Option IntensityTable :=
  match spot_attributes with
  | [] => none
  | p :: rest =>
    let ps := p :: rest
    let n_ch := (ps.map fun q => q.2.1).foldl Nat.max 0 + 1
    let n_round := (ps.map fun q => q.2.2).foldl Nat.max 0 + 1
    let features_coordinates := (ps.map fun q => q.1.rows).flatten
    let intensity_table := IntensityTable.empty_intensity_table
      ⟨features_coordinates, none⟩ n_ch n_round
    some (fillFrom 0 (flatStampedRows ps) intensity_table)

theorem init_le_foldl_max (l : List ℕ) : ∀ a, a ≤ l.foldl Nat.max a := by
  induction l with
  | nil => intro a; exact le_rfl
  | cons b l ih => intro a; exact le_trans (Nat.le_max_left a b) (ih (Nat.max a b))

theorem mem_le_foldl_max (l : List ℕ) : ∀ a x, x ∈ l → x ≤ l.foldl Nat.max a := by
  induction l with
  | nil => intro a x hx; cases hx
  | cons b l ih =>
    intro a x hx
    rw [List.foldl_cons]
    rcases List.mem_cons.mp hx with h | h
    · subst h
      exact le_trans (Nat.le_max_right a x) (init_le_foldl_max l _)
    · exact ih _ x h

theorem foldl_max_mem_or_init (l : List ℕ) :
    ∀ a, l.foldl Nat.max a = a ∨ l.foldl Nat.max a ∈ l := by
  induction l with
  | nil => intro a; exact Or.inl rfl
  | cons b l ih =>
    intro a
    rw [List.foldl_cons]
    rcases ih (Nat.max a b) with h | h
    · rcases max_choice a b with hab | hab
      · exact Or.inl (h.trans hab)
      · exact Or.inr (List.mem_cons.mpr (Or.inl (h.trans hab)))
    · exact Or.inr (List.mem_cons.mpr (Or.inr h))

theorem foldl_max_zero_mem {l : List ℕ} (h : l ≠ []) : l.foldl Nat.max 0 ∈ l := by
  rcases foldl_max_mem_or_init l 0 with h0 | hm
  · cases l with
    | nil => exact absurd rfl h
    | cons b t =>
      have hb : b ≤ (b :: t).foldl Nat.max 0 :=
        mem_le_foldl_max _ 0 b (List.mem_cons_self b t)
      rw [h0] at hb ⊢
      exact (Nat.le_zero.mp hb) ▸ List.mem_cons_self b t
  · exact hm

theorem fillFrom_dims (rows : List (ℚ × ℕ × ℕ)) :
    ∀ (start : ℕ) (t : IntensityTable),
      (fillFrom start rows t).nSpots = t.nSpots ∧
      (fillFrom start rows t).n_ch = t.n_ch ∧
      (fillFrom start rows t).n_round = t.n_round := by
  induction rows with
  | nil => intro start t; exact ⟨rfl, rfl, rfl⟩
  | cons sr rest ih =>
    intro start t
    simp only [fillFrom]
    exact ih (start + 1) (fillAt t start sr.2.1 sr.2.2 sr.1)

theorem fillFrom_entries_lt (rows : List (ℚ × ℕ × ℕ)) :
    ∀ (start : ℕ) (t : IntensityTable) (i c r : ℕ), i < start →
      (fillFrom start rows t).entries i c r = t.entries i c r := by
  induction rows with
  | nil => intro start t i c r _; rfl
  | cons sr rest ih =>
    intro start t i c r hi
    simp only [fillFrom]
    rw [ih (start + 1) _ i c r (by omega)]
    exact if_neg fun hcon => Nat.ne_of_lt hi hcon.1

theorem fillFrom_entries_at (rows : List (ℚ × ℕ × ℕ)) :
    ∀ (start : ℕ) (t : IntensityTable) (k c r : ℕ) (hk : k < rows.length),
      (fillFrom start rows t).entries (start + k) c r
        = if c = (rows.get ⟨k, hk⟩).2.1 ∧ r = (rows.get ⟨k, hk⟩).2.2
          then some ((rows.get ⟨k, hk⟩).1)
          else t.entries (start + k) c r := by
  induction rows with
  | nil => intro start t k c r hk; exact absurd hk (by simp)
  | cons sr rest ih =>
    intro start t k c r hk
    simp only [fillFrom]
    cases k with
    | zero =>
      rw [fillFrom_entries_lt rest (start + 1) _ (start + 0) c r (by omega)]
      have hget : (sr :: rest).get ⟨0, hk⟩ = sr := rfl
      rw [hget]
      simp only [fillAt]
      by_cases hc : c = sr.2.1 ∧ r = sr.2.2
      · rw [if_pos ⟨by omega, hc.1, hc.2⟩, if_pos hc]
      · rw [if_neg fun hcon => hc ⟨hcon.2.1, hcon.2.2⟩, if_neg hc]
    | succ j =>
      have hj : j < rest.length := by
        simpa [List.length_cons] using Nat.lt_of_succ_lt_succ hk
      have harr : start + (j + 1) = (start + 1) + j := by omega
      rw [harr, ih (start + 1) _ j c r hj]
      have hget : rest.get ⟨j, hj⟩ = (sr :: rest).get ⟨j + 1, hk⟩ := rfl
      rw [hget]
      by_cases hc : c = ((sr :: rest).get ⟨j + 1, hk⟩).2.1 ∧
          r = ((sr :: rest).get ⟨j + 1, hk⟩).2.2
      · rw [if_pos hc, if_pos hc]
      · rw [if_neg hc, if_neg hc]
        simp only [fillAt]
        exact if_neg fun hcon => (by omega : (start + 1) + j ≠ start) hcon.1

theorem length_flatStampedRows (ps : List (SpotAttributes × ℕ × ℕ)) :
    (flatStampedRows ps).length = ((ps.map fun q => q.1.rows).flatten).length := by
  simp [flatStampedRows, List.length_flatMap, List.length_flatten, List.map_map,
    Function.comp_def]

/-- C7: concatenation of an empty sequence of per-slice results fails
explicitly (Python's `max()` over the empty generator raises, modelled as
`none`); any non-empty sequence yields a table. -/
theorem concatenate_empty_errors :
    concatenate_spot_attributes_to_intensities [] = none ∧
    ∀ ps : List (SpotAttributes × ℕ × ℕ), ps ≠ [] →
      (concatenate_spot_attributes_to_intensities ps).isSome = true := by
  refine ⟨rfl, fun ps hne => ?_⟩
  cases ps with
  | nil => exact absurd rfl hne
  | cons p rest => rfl

theorem concatenate_empty_errors_witness :
    concatenate_spot_attributes_to_intensities [] = none ∧
    (concatenate_spot_attributes_to_intensities [(emptySpots, 0, 0)]).isSome = true :=
  ⟨concatenate_empty_errors.1,
    concatenate_empty_errors.2 [(emptySpots, 0, 0)] (by simp)⟩

/-- C4: for a non-empty input, the concatenated table's channel extent is
one plus the maximum observed channel index (every observed index fits, and
the bound is attained), likewise for rounds, and the number of spot rows is
the sum of the per-slice row counts — rows are never merged across slices. -/
theorem concatenate_shape_rows
    (ps : List (SpotAttributes × ℕ × ℕ)) (t : IntensityTable)
    (h : concatenate_spot_attributes_to_intensities ps = some t) :
    (∀ p ∈ ps, p.2.1 < t.n_ch ∧ p.2.2 < t.n_round) ∧
    (∃ p ∈ ps, p.2.1 + 1 = t.n_ch) ∧
    (∃ p ∈ ps, p.2.2 + 1 = t.n_round) ∧
    t.nSpots = (ps.map fun p => p.1.rows.length).sum := by
  cases ps with
  | nil => exact absurd h (by simp [concatenate_spot_attributes_to_intensities])
  | cons p rest =>
    have h' : some (fillFrom 0 (flatStampedRows (p :: rest))
        (IntensityTable.empty_intensity_table
          ⟨((p :: rest).map fun q => q.1.rows).flatten, none⟩
          (((p :: rest).map fun q => q.2.1).foldl Nat.max 0 + 1)
          (((p :: rest).map fun q => q.2.2).foldl Nat.max 0 + 1))) = some t := h
    have ht := (Option.some.inj h').symm
    have hdims := fillFrom_dims (flatStampedRows (p :: rest)) 0
      (IntensityTable.empty_intensity_table
        ⟨((p :: rest).map fun q => q.1.rows).flatten, none⟩
        (((p :: rest).map fun q => q.2.1).foldl Nat.max 0 + 1)
        (((p :: rest).map fun q => q.2.2).foldl Nat.max 0 + 1))
    have hch : t.n_ch = ((p :: rest).map fun q => q.2.1).foldl Nat.max 0 + 1 := by
      rw [ht]; exact hdims.2.1
    have hrd : t.n_round = ((p :: rest).map fun q => q.2.2).foldl Nat.max 0 + 1 := by
      rw [ht]; exact hdims.2.2
    have hsp : t.nSpots = (((p :: rest).map fun q => q.1.rows).flatten).length := by
      rw [ht]; exact hdims.1
    refine ⟨fun q hq => ⟨?_, ?_⟩, ?_, ?_, ?_⟩
    · rw [hch]
      have := mem_le_foldl_max (((p :: rest)).map fun q => q.2.1) 0 q.2.1
        (List.mem_map_of_mem _ hq)
      omega
    · rw [hrd]
      have := mem_le_foldl_max (((p :: rest)).map fun q => q.2.2) 0 q.2.2
        (List.mem_map_of_mem _ hq)
      omega
    · have hmem := foldl_max_zero_mem
        (l := ((p :: rest)).map fun q => q.2.1) (by simp)
      rcases List.mem_map.mp hmem with ⟨q, hq, hqe⟩
      exact ⟨q, hq, by rw [hch, hqe]⟩
    · have hmem := foldl_max_zero_mem
        (l := ((p :: rest)).map fun q => q.2.2) (by simp)
      rcases List.mem_map.mp hmem with ⟨q, hq, hqe⟩
      exact ⟨q, hq, by rw [hrd, hqe]⟩
    · rw [hsp]
      simp [List.length_flatten, List.map_map, Function.comp_def]

/-- C10: each input spot row causes exactly one tensor write, at (its
running global index over pairs in input order, its pair's channel, its
pair's round); every other (channel, round) entry of that row keeps the
freshly allocated tensor's unset (NaN) value. -/
theorem concatenate_single_write
    (ps : List (SpotAttributes × ℕ × ℕ)) (t : IntensityTable)
    (h : concatenate_spot_attributes_to_intensities ps = some t) :
    t.nSpots = (flatStampedRows ps).length ∧
    ∀ (i c r : ℕ) (hi : i < (flatStampedRows ps).length),
      t.entries i c r
        = if c = ((flatStampedRows ps).get ⟨i, hi⟩).2.1 ∧
             r = ((flatStampedRows ps).get ⟨i, hi⟩).2.2
          then some (((flatStampedRows ps).get ⟨i, hi⟩).1)
          else none := by
  cases ps with
  | nil => exact absurd h (by simp [concatenate_spot_attributes_to_intensities])
  | cons p rest =>
    have h' : some (fillFrom 0 (flatStampedRows (p :: rest))
        (IntensityTable.empty_intensity_table
          ⟨((p :: rest).map fun q => q.1.rows).flatten, none⟩
          (((p :: rest).map fun q => q.2.1).foldl Nat.max 0 + 1)
          (((p :: rest).map fun q => q.2.2).foldl Nat.max 0 + 1))) = some t := h
    have ht := (Option.some.inj h').symm
    constructor
    · rw [ht, (fillFrom_dims _ _ _).1, IntensityTable.empty_intensity_table,
        length_flatStampedRows]
    · intro i c r hi
      have hat := fillFrom_entries_at (flatStampedRows (p :: rest)) 0
        (IntensityTable.empty_intensity_table
          ⟨((p :: rest).map fun q => q.1.rows).flatten, none⟩
          (((p :: rest).map fun q => q.2.1).foldl Nat.max 0 + 1)
          (((p :: rest).map fun q => q.2.2).foldl Nat.max 0 + 1))
        i c r hi
      rw [ht]
      have hzero : (0 : ℕ) + i = i := by omega
      rw [hzero] at hat
      rw [hat]
      rfl

/-- A one-spot table with a recorded intensity of 7. -/
def oneSpot : SpotAttributes := ⟨[⟨0, 0, 0, 1, 7⟩], none⟩

/-- A two-spot table with recorded intensities 9 and 4. -/
def twoSpots : SpotAttributes := ⟨[⟨1, 1, 1, 1, 9⟩, ⟨2, 2, 2, 1, 4⟩], none⟩

/-- Two per-slice results: one spot at (channel 1, round 2), two spots at
(channel 0, round 1). -/
def exPairs : List (SpotAttributes × ℕ × ℕ) := [(oneSpot, 1, 2), (twoSpots, 0, 1)]

theorem measure_spot_intensities_shape_fill_witness :
    (measure_spot_intensities exStack oneSpot listMax false).nSpots = 1 ∧
    (measure_spot_intensities exStack oneSpot listMax false).n_ch = 2 ∧
    (measure_spot_intensities exStack oneSpot listMax false).n_round = 3 ∧
    ((measure_spot_intensities exStack oneSpot listMax false).entries 0 1 2).isSome := by
  have h := measure_spot_intensities_shape_fill exStack oneSpot listMax false
  exact ⟨h.1.trans rfl, h.2.1.trans rfl, h.2.2.1.trans rfl,
    ((h.2.2.2.2 1 2 (by decide) (by decide)).2 0 (by decide)).2⟩

theorem concatenate_shape_rows_witness :
    ∃ t, concatenate_spot_attributes_to_intensities exPairs = some t ∧
      (∀ p ∈ exPairs, p.2.1 < t.n_ch ∧ p.2.2 < t.n_round) ∧
      t.nSpots = (exPairs.map fun p => p.1.rows.length).sum := by
  have h := concatenate_shape_rows exPairs _ rfl
  exact ⟨_, rfl, h.1, h.2.2.2⟩

theorem concatenate_single_write_witness :
    ∃ t, concatenate_spot_attributes_to_intensities exPairs = some t ∧
      t.entries 0 1 2 = some 7 ∧
      t.entries 0 0 1 = none ∧
      t.entries 1 0 1 = some 9 ∧
      t.entries 2 0 1 = some 4 := by
  have h := concatenate_single_write exPairs _ rfl
  refine ⟨_, rfl, ?_, ?_, ?_, ?_⟩
  · rw [h.2 0 1 2 (by decide)]
    rfl
  · rw [h.2 0 0 1 (by decide)]
    rfl
  · rw [h.2 1 0 1 (by decide)]
    rfl
  · rw [h.2 2 0 1 (by decide)]
    rfl

/-! ## The orchestrator and the measurement-function lookup -/

/-- Modelled from the spec: `data_stack.max_proj(Axes.CH, Axes.ROUND)`
(the volume's maximum-projection facility, not under `src/`) collapses the
channel and round axes by maximum. -/
def maxProjImage (s : ImageStack) : ℕ → ℕ → ℕ → ℚ := fun z y x =>
  ((chRoundPairs s.n_ch s.n_round).map fun cr => s.data cr.1 cr.2 z y x).foldr max 0

/-- Modelled from the spec: `data_stack.transform(func, group_by={ROUND, CH})`
(the volume's map-by-grouping facility, not under `src/`) applies the spot
finder independently to every (channel, round) slice and returns the
per-slice results with their indices. -/
def transformFind (s : ImageStack)
    (spot_finding_method : (ℕ → ℕ → ℕ → ℚ) → SpotAttributes) :
    List (SpotAttributes × ℕ × ℕ) :=
  (List.range s.n_round).flatMap fun r =>
    (List.range s.n_ch).map fun c => (spot_finding_method (s.get_slice c r), c, r)

/-- `detect_spots`: reject the mutually exclusive configuration first;
optionally derive the reference by max-projection; on the reference path
require aligned tiles, find spots once in the reference and measure them
across every slice; otherwise find spots independently per slice and
concatenate.  (The `spot_finding_kwargs` are folded into the finder, the
`n_processes` parallelism hint has no semantic effect, and the final
physical-coordinate transfer mutates only side metadata outside this
model.) -/
def detect_spots (data_stack : ImageStack)
    (spot_finding_method : (ℕ → ℕ → ℕ → ℚ) → SpotAttributes)
    (reference_image : Option (ℕ → ℕ → ℕ → ℚ))
    (reference_image_from_max_projection : Bool)
    (measurement_function : List ℚ → ℚ)
    (radius_is_gyration : Bool) : Except String IntensityTable :=
  if reference_image.isSome ∧ reference_image_from_max_projection then
    Except.error "Please pass only one of reference_image and reference_image_from_max_projection"
  else
    let ref : Option (ℕ → ℕ → ℕ → ℚ) :=
      if reference_image_from_max_projection then some (maxProjImage data_stack)
      else reference_image
    match ref with
    | some refImg =>
      if data_stack.tiles_aligned = false then
        Except.error "Detected tiles in the image stack that correspond to different positions in coordinate space."
      else
        Except.ok (measure_spot_intensities data_stack (spot_finding_method refImg)
          measurement_function radius_is_gyration)
    | none =>
      match concatenate_spot_attributes_to_intensities
          (transformFind data_stack spot_finding_method) with
      | some t => Except.ok t
      | none => Except.error "max() arg is an empty sequence"

/-- C6: `detect_spots` returns the configuration-conflict error exactly when
both an explicit reference image and the max-projection flag are supplied —
it is raised before any computation (no tensor is produced), and with at
most one of the two supplied this error is never the result. -/
theorem detect_spots_conflict
    (data_stack : ImageStack)
    (finder : (ℕ → ℕ → ℕ → ℚ) → SpotAttributes)
    (reference_image : Option (ℕ → ℕ → ℕ → ℚ))
    (flag : Bool) (f : List ℚ → ℚ) (g : Bool) :
    detect_spots data_stack finder reference_image flag f g
        = Except.error "Please pass only one of reference_image and reference_image_from_max_projection"
      ↔ reference_image.isSome = true ∧ flag = true := by
  cases reference_image with
  | none =>
    cases flag with
    | true =>
      by_cases htiles : data_stack.tiles_aligned = false
      · simp [detect_spots, htiles]
      · simp [detect_spots, htiles]
    | false =>
      cases hcc : concatenate_spot_attributes_to_intensities
          (transformFind data_stack finder) with
      | none => simp [detect_spots, hcc]
      | some t => simp [detect_spots, hcc]
  | some refI =>
    cases flag with
    | true =>
      simp [detect_spots]
    | false =>
      by_cases htiles : data_stack.tiles_aligned = false
      · simp [detect_spots, htiles]
      · simp [detect_spots, htiles]

theorem detect_spots_conflict_witness :
    detect_spots exStack (fun _ => emptySpots) (some zeroImage) true listMax false
      = Except.error "Please pass only one of reference_image and reference_image_from_max_projection" :=
  (detect_spots_conflict exStack (fun _ => emptySpots) (some zeroImage) true
    listMax false).mpr ⟨rfl, rfl⟩

/-- Modelled from the spec: the numeric-reduction vocabulary consulted by the
lookup — in the source, `getattr(np, measurement_type)` over the external
NumPy namespace; modelled as the spec's enumerated set of named reductions
mapped to concrete functions. -/
def numpyNamespace : List (String × (List ℚ → ℚ)) :=
  [("max", listMax), ("mean", listMean), ("min", listMin), ("sum", listSum)]

/-- `FindSpotsAlgorithmBase._get_measurement_function`: look the statistic
name up in the reduction vocabulary; an unknown name raises a `ValueError`
whose message names the invalid statistic, before any per-spot measurement. -/
def get_measurement_function (measurement_type : String) :
    Except String (List ℚ → ℚ) :=
  match numpyNamespace.lookup measurement_type with
  | some fn => Except.ok fn
  | none => Except.error
      ("measurement_type must be a numpy reduce function such as \"max\" or \"mean\". "
        ++ measurement_type ++ " not found.")

/-- C8: a statistic name absent from the reduction vocabulary yields, at
lookup time, an error whose message contains the invalid name; the names of
existing reductions such as "max" and "mean" resolve to their functions
without error. -/
theorem get_measurement_function_spec :
    (∀ name : String, numpyNamespace.lookup name = none →
      get_measurement_function name = Except.error
        ("measurement_type must be a numpy reduce function such as \"max\" or \"mean\". "
          ++ name ++ " not found.")) ∧
    get_measurement_function "max" = Except.ok listMax ∧
    get_measurement_function "mean" = Except.ok listMean := by
  refine ⟨fun name hn => ?_, rfl, rfl⟩
  unfold get_measurement_function
  rw [hn]

theorem get_measurement_function_spec_witness :
    numpyNamespace.lookup "variance" = none ∧
    get_measurement_function "variance" = Except.error
      ("measurement_type must be a numpy reduce function such as \"max\" or \"mean\". "
        ++ "variance" ++ " not found.") ∧
    get_measurement_function "max" = Except.ok listMax := by
  have hn : numpyNamespace.lookup "variance" = none := rfl
  exact ⟨hn, get_measurement_function_spec.1 "variance" hn,
    get_measurement_function_spec.2.1⟩
